import Mathlib

/-!
Verification of the VEA audio-reactive render pipeline.

This file gives a shallow embedding of the core of the repository —
the audio feature extractor (`audioAnalyzer.js`), the streaming frame
producer (`renderEngine.js`, streaming variant), the visual layer
compositor (`visualRenderer.js`), and the job orchestrator
(`jobQueue.js` together with the render routes of `server.js`) — and
proves or refutes the documented properties of those components.

Machine numbers are modelled exactly: rationals stand for JavaScript
floats wherever the source only performs field operations, and a small
`JSNum` type captures the NaN/Infinity propagation that the analyzer's
division can produce.  `Math.sqrt` is represented by `Real.sqrt`
applied to the rational mean square.
-/

namespace VEA

/-! ## JavaScript number semantics

Only the operations appearing in `audioAnalyzer.js` are modelled.
`JSNum.val q` is an ordinary finite double (exact arithmetic), the
remaining constructors are the IEEE special values that can arise from
dividing by a zero `chunkSize`. -/

inductive JSNum where
  | nan : JSNum
  | inf : JSNum
  | ninf : JSNum
  | val : ℚ → JSNum
deriving DecidableEq

/-- JavaScript division `a / b`: finite by finite is exact, `0/0` is NaN,
nonzero by zero gives a signed infinity.  Special-value operands do not
occur in the analyzer (both operands are always finite), so they
propagate NaN. -/
def jsDiv : JSNum → JSNum → JSNum
  | .val a, .val b =>
      if b = 0 then
        if a = 0 then .nan else if 0 < a then .inf else .ninf
      else .val (a / b)
  | _, _ => .nan

/-- Multiplication by a positive finite constant (the analyzer multiplies
by `255` and by `127.5`, both positive). -/
def jsMulPos (x : JSNum) (c : ℚ) : JSNum :=
  match x with
  | .val a => .val (a * c)
  | .nan => .nan
  | .inf => .inf
  | .ninf => .ninf

/-- Addition of a finite constant (the analyzer adds `1`). -/
def jsAddConst (x : JSNum) (c : ℚ) : JSNum :=
  match x with
  | .val a => .val (a + c)
  | .nan => .nan
  | .inf => .inf
  | .ninf => .ninf

/-- JavaScript `Math.floor`: identity on NaN and the infinities. -/
def jsFloor : JSNum → JSNum
  | .val a => .val ⌊a⌋
  | .nan => .nan
  | .inf => .inf
  | .ninf => .ninf

/-- JavaScript `Math.min(255, x)`: NaN if `x` is NaN. -/
def jsMin255 : JSNum → JSNum
  | .val a => .val (min 255 a)
  | .nan => .nan
  | .inf => .val 255
  | .ninf => .ninf

/-! ## AudioAnalyzer (`audioAnalyzer.js`)

The analyzer is constructed with `sampleRate = 44100` and
`fftSize = 256`; samples are the channel-averaged, `[-1,1]`-normalized
PCM values. -/

def sampleRate : ℕ := 44100

def fftSize : ℕ := 256

/-- `AudioAnalyzer.calculateFrequency(samples)`: an empty window returns a
zero-filled array; otherwise the window is cut into `fftSize` chunks of
`floor (length / fftSize)` samples, and each bin is
`Math.min(255, Math.floor((sum |s|) / chunkSize * 255))`. -/
def calculateFrequency (samples : List ℚ) : List JSNum :=
  if samples.length = 0 then List.replicate fftSize (.val 0)
  else
    let chunkSize := samples.length / fftSize
    (List.range fftSize).map (fun i =>
      let start := i * chunkSize
      let stop := min (start + chunkSize) samples.length
      let s := (((samples.drop start).take (stop - start)).map (fun x => |x|)).sum
      jsMin255 (jsFloor (jsMulPos (jsDiv (.val s) (.val (chunkSize : ℚ))) 255)))

/-- `AudioAnalyzer.calculateWaveform(samples)`: like `calculateFrequency`
but with the signed sum, bin value
`Math.floor(((sum / chunkSize) + 1) * 127.5)`. -/
def calculateWaveform (samples : List ℚ) : List JSNum :=
  if samples.length = 0 then List.replicate fftSize (.val 0)
  else
    let chunkSize := samples.length / fftSize
    (List.range fftSize).map (fun i =>
      let start := i * chunkSize
      let stop := min (start + chunkSize) samples.length
      let s := ((samples.drop start).take (stop - start)).sum
      jsFloor (jsMulPos (jsAddConst (jsDiv (.val s) (.val (chunkSize : ℚ))) 1) (255/2)))

/-- The mean square of `AudioAnalyzer.calculateRMS`: the returned RMS is
`Real.sqrt` of this value; an empty window returns `0` directly. -/
def calculateRMSSq (samples : List ℚ) : ℚ :=
  if samples.length = 0 then 0
  else (samples.map (fun s => s * s)).sum / samples.length

/-- One entry of the array produced by `analyzeAudio`; `rmsSq` holds the
mean square, so the source's `rms` field equals `Real.sqrt rmsSq`. -/
structure FrameData where
  time : ℚ
  freq : List JSNum
  wave : List JSNum
  rmsSq : ℚ
deriving DecidableEq

/-- The sample window of output frame `frameIndex`:
`sampleIndex = Math.floor(frameTime * sampleRate)` with
`frameTime = frameIndex / fps`, window length
`Math.floor(sampleRate / fps)`, taken with `Array.slice` clamping. -/
def frameWindow (samples : List ℚ) (fps : ℕ) (frameIndex : ℕ) : List ℚ :=
  let sampleIndex := frameIndex * sampleRate / fps
  let samplesPerFrame := sampleRate / fps
  (samples.drop sampleIndex).take samplesPerFrame

/-- `AudioAnalyzer.analyzeAudio(fps)` after the WAV file has been parsed
into `samples`: builds `Math.ceil(duration * fps)` frames, each with
frequency, waveform and RMS data for its window. -/
def analyzeAudio (startTime endTime : ℚ) (samples : List ℚ) (fps : ℕ) :
    List FrameData :=
  let duration := endTime - startTime
  let totalFrames := (⌈duration * (fps : ℚ)⌉).toNat
  (List.range totalFrames).map (fun frameIndex =>
    let w := frameWindow samples fps frameIndex
    { time := (frameIndex : ℚ) / (fps : ℚ)
      freq := calculateFrequency w
      wave := calculateWaveform w
      rmsSq := calculateRMSSq w })

/-! ## Job orchestrator (`jobQueue.js` and the render routes of the server)

The queue state mirrors the `JobQueue` fields: `jobs` is the
insertion-ordered `Map`, `queue` the waiting array of ids, `processing`
the `Set` of in-flight ids (a JavaScript `Set` keeps insertion order and
holds no duplicates, so it is a list managed by guarded insertion). -/

inductive JobStatus where
  | queued
  | processing
  | completed
  | failed
deriving DecidableEq

/-- A record of the `jobs` map.  `result` abstracts the artifact
reference; timestamps are abstract naturals supplied to each operation
in place of `Date.now()`. -/
structure JobRecord where
  status : JobStatus
  progress : ℤ
  stage : String
  createdAt : ℕ
  startedAt : Option ℕ
  completedAt : Option ℕ
  error : Option String
  result : Option String
deriving DecidableEq

/-- A partial record, as passed to `updateJob` (and spread as `jobData`
in `addJob`): `Object.assign` overwrites exactly the fields present. -/
structure JobUpdates where
  status : Option JobStatus := none
  progress : Option ℤ := none
  stage : Option String := none
  startedAt : Option (Option ℕ) := none
  completedAt : Option (Option ℕ) := none
  error : Option (Option String) := none
  result : Option (Option String) := none
deriving DecidableEq

/-- `Object.assign(job, updates)`. -/
def applyUpdates (j : JobRecord) (u : JobUpdates) : JobRecord :=
  { status := u.status.getD j.status
    progress := u.progress.getD j.progress
    stage := u.stage.getD j.stage
    createdAt := j.createdAt
    startedAt := u.startedAt.getD j.startedAt
    completedAt := u.completedAt.getD j.completedAt
    error := u.error.getD j.error
    result := u.result.getD j.result }

/-- Insertion-ordered map lookup (`Map.get`). -/
def lookupA : List (String × JobRecord) → String → Option JobRecord
  | [], _ => none
  | p :: t, id => if p.1 = id then some p.2 else lookupA t id

/-- `Map.set`: replace in place when the key exists, append otherwise. -/
def setA : List (String × JobRecord) → String → JobRecord →
    List (String × JobRecord)
  | [], id, j => [(id, j)]
  | p :: t, id, j => if p.1 = id then (p.1, j) :: t else p :: setA t id j

/-- In-place mutation of the record held under `id`, if present. -/
def modifyA : List (String × JobRecord) → String → (JobRecord → JobRecord) →
    List (String × JobRecord)
  | [], _, _ => []
  | p :: t, id, f =>
    if p.1 = id then (p.1, f p.2) :: modifyA t id f
    else p :: modifyA t id f

/-- `Map.delete`. -/
def deleteA : List (String × JobRecord) → String → List (String × JobRecord)
  | [], _ => []
  | p :: t, id => if p.1 = id then deleteA t id else p :: deleteA t id

/-- `Set.add`. -/
def setInsert (l : List String) (id : String) : List String :=
  if id ∈ l then l else l ++ [id]

/-- The whole `JobQueue` instance. -/
structure QueueState where
  jobs : List (String × JobRecord)
  queue : List String
  processing : List String
  maxConcurrent : ℕ
deriving DecidableEq

/-- `new JobQueue(k)`. -/
def initState (k : ℕ) : QueueState :=
  { jobs := [], queue := [], processing := [], maxConcurrent := k }

/-- `JobQueue.processQueue`: return when the concurrency cap is reached
or the wait list is empty; otherwise shift the head id (the shift
happens before the map lookup, so a dangling id is dropped from the
queue), mark it processing and record its start time. -/
def processQueue (now : ℕ) (s : QueueState) : QueueState :=
  if s.maxConcurrent ≤ s.processing.length then s
  else
    match s.queue with
    | [] => s
    | jobId :: rest =>
      match lookupA s.jobs jobId with
      | none => { s with queue := rest }
      | some _ =>
        { s with
          queue := rest
          processing := setInsert s.processing jobId
          jobs := modifyA s.jobs jobId (fun j =>
            { j with status := .processing, startedAt := some now }) }

/-- `JobQueue.addJob(jobId, jobData)`: build the default record, spread
`jobData` over it, store it, push the id and try the queue. -/
def addJob (id : String) (jobData : JobUpdates) (now : ℕ) (s : QueueState) :
    QueueState :=
  let base : JobRecord :=
    { status := .queued, progress := 0, stage := "queued", createdAt := now
      startedAt := none, completedAt := none, error := none, result := none }
  processQueue now
    { s with jobs := setA s.jobs id (applyUpdates base jobData)
             queue := s.queue ++ [id] }

/-- `JobQueue.updateJob(jobId, updates)`. -/
def updateJob (id : String) (u : JobUpdates) (s : QueueState) : QueueState :=
  { s with jobs := modifyA s.jobs id (fun j => applyUpdates j u) }

/-- `JobQueue.completeJob(jobId, result)`. -/
def completeJob (id : String) (result : String) (now : ℕ) (s : QueueState) :
    QueueState :=
  processQueue now
    { s with processing := s.processing.erase id
             jobs := modifyA s.jobs id (fun j =>
               { j with status := .completed, progress := 100
                        completedAt := some now, result := some result }) }

/-- `JobQueue.failJob(jobId, error)`. -/
def failJob (id : String) (err : String) (now : ℕ) (s : QueueState) :
    QueueState :=
  processQueue now
    { s with processing := s.processing.erase id
             jobs := modifyA s.jobs id (fun j =>
               { j with status := .failed, error := some err
                        completedAt := some now }) }

/-- `JobQueue.completeRenderIsolation(jobId)`: when the record exists,
delete it from the map, the processing set, and (first occurrence) the
wait list. -/
def completeRenderIsolation (id : String) (s : QueueState) : QueueState :=
  match lookupA s.jobs id with
  | none => s
  | some _ =>
    { s with jobs := deleteA s.jobs id
             processing := s.processing.erase id
             queue := s.queue.erase id }

/-- The orchestrator operations named by the specification, with the
timestamp each one would read from `Date.now()`. -/
inductive QueueOp where
  | add (id : String) (jobData : JobUpdates) (now : ℕ)
  | process (now : ℕ)
  | update (id : String) (u : JobUpdates)
  | complete (id : String) (result : String) (now : ℕ)
  | fail (id : String) (err : String) (now : ℕ)
  | isolate (id : String)

def applyOp (s : QueueState) : QueueOp → QueueState
  | .add id d now => addJob id d now s
  | .process now => processQueue now s
  | .update id u => updateJob id u s
  | .complete id r now => completeJob id r now s
  | .fail id e now => failJob id e now s
  | .isolate id => completeRenderIsolation id s

def runOps (s : QueueState) (ops : List QueueOp) : QueueState :=
  ops.foldl applyOp s

/-- Status of a job as an observer sees it. -/
def statusOf (s : QueueState) (id : String) : Option JobStatus :=
  (lookupA s.jobs id).map JobRecord.status

/-- Number of stored jobs carrying a given status. -/
def countStatus (s : QueueState) (st : JobStatus) : ℕ :=
  (s.jobs.filter (fun p => p.2.status == st)).length

/-- The record a fresh submission stores before admission: the `addJob`
defaults with `jobData` spread over them. -/
def queuedRec (d : JobUpdates) (now : ℕ) : JobRecord :=
  applyUpdates
    { status := .queued, progress := 0, stage := "queued", createdAt := now
      startedAt := none, completedAt := none, error := none, result := none } d

/-- The same record after `processQueue` admits the job. -/
def startedRec (d : JobUpdates) (now : ℕ) : JobRecord :=
  { queuedRec d now with status := .processing, startedAt := some now }

/-- The structural invariant the queue maintains when it is driven the
way the render route drives it: the wait list has no duplicates and
holds only `queued` jobs, and the processing set has no duplicates and
holds only `processing` jobs. -/
def Inv (s : QueueState) : Prop :=
  s.queue.Nodup ∧
  (∀ id ∈ s.queue, statusOf s id = some .queued) ∧
  s.processing.Nodup ∧
  (∀ id ∈ s.processing, statusOf s id = some .processing)

/-- How the render route actually drives the five orchestrator
operations the specification's state machine covers: fresh ids from
`uuidv4()`, `jobData` and `updateJob` payloads that never carry a
`status` field in a terminal-overwriting way is not guaranteed by the
code, so the guarded fragment records the discipline under which
terminal states are final: submissions use fresh ids and carry no
status, periodic updates carry no status, and completion/failure is
reported only for jobs currently in the processing set.
`completeRenderIsolation` deletes the record outright and is outside
this fragment. -/
def GoodOp (s : QueueState) : QueueOp → Prop
  | .add id d _ => lookupA s.jobs id = none ∧ d.status = none
  | .process _ => True
  | .update _ u => u.status = none
  | .complete id _ _ => id ∈ s.processing
  | .fail id _ _ => id ∈ s.processing
  | .isolate _ => False

/-- A run all of whose operations respect `GoodOp` at the state they
execute in. -/
def GoodRun : QueueState → List QueueOp → Prop
  | _, [] => True
  | s, op :: ops => GoodOp s op ∧ GoodRun (applyOp s op) ops

/-! ## Segment extraction (`AudioAnalyzer.extractSegment`)

The method shells out to ffmpeg and, when the command resolves, returns
the output path without inspecting the produced file; when the command
rejects it logs and rethrows the subprocess error. -/

/-- Outcome of `execPromise(command)`: resolution, or rejection with the
subprocess diagnostic. -/
inductive ExecResult where
  | ok : ExecResult
  | failed : String → ExecResult
deriving DecidableEq

/-- `AudioAnalyzer.extractSegment(outputPath)`.  `outFile` is the
observable state of the output file after the command ran (`none` when
missing, otherwise its byte size); the source never reads it. -/
def extractSegment (outputPath : String) (exec : ExecResult)
    (_outFile : Option ℕ) : Except String String :=
  match exec with
  | .ok => .ok outputPath
  | .failed msg => .error msg

/-! ## Streaming encoder input (`RenderEngine.processFramesStreaming`)

The subprocess's stdin is a Node writable stream: `write` always
appends to the internal buffer and returns `false` once the buffered
amount has reached the high-water mark — the saturation signal a
backpressure-aware producer awaits `drain` on. -/

structure Channel where
  buffer : List ℕ
  highWaterMark : ℕ
  destroyed : Bool
deriving DecidableEq

/-- Node `Writable.write`: the chunk is buffered unconditionally; the
returned flag is `false` when the producer ought to pause. -/
def channelWrite (ch : Channel) (frame : ℕ) : Channel × Bool :=
  ({ ch with buffer := ch.buffer ++ [frame] },
    decide (ch.buffer.length + 1 < ch.highWaterMark))

/-- The producer-visible state while streaming: the stdin channel plus
the subprocess liveness flags the loop checks before each write. -/
structure StreamState where
  ch : Channel
  processAlive : Bool
  killed : Bool
deriving DecidableEq

/-- `RenderEngine.processFramesStreaming` with a stalled consumer (the
worst case the backpressure contract covers): for each frame in index
order, render it (frames are pre-rendered into `frames` here), check the
process is alive and stdin not destroyed (throw otherwise), then call
`stdin.write`, discarding its saturation flag — the loop never awaits a
drain event.  The periodic `setImmediate` yield changes no state. -/
def processFramesStreaming (frames : List ℕ) (st : StreamState) :
    Except String StreamState :=
  frames.foldl
    (fun acc frame =>
      match acc with
      | .error e => .error e
      | .ok s =>
        if !s.processAlive || s.ch.destroyed || s.killed then
          .error "FFmpeg process terminated unexpectedly"
        else
          .ok { s with ch := (channelWrite s.ch frame).1 })
    (.ok st)

/-! ## Status route (`GET /render/status/:jobId`) and the failure path -/

/-- Modelled from the spec: `RenderEngine.getJobStatus`, called by the
status route, is absent from the sources (only the call site exists).
Per the spec's retention design (§4.4, §8), it is a persistence store of
successfully completed jobs — looking up any id without a persisted
completed record reports not-found. -/
structure PersistedRecord where
  status : JobStatus
  progress : ℤ
  outputPath : String
  completedAt : ℕ
deriving DecidableEq

/-- Modelled from the spec: lookup in the completed-jobs persistence. -/
def getJobStatus (persisted : List (String × PersistedRecord))
    (id : String) : Option PersistedRecord :=
  (persisted.find? (fun p => p.1 == id)).map Prod.snd

/-- What the status route answers. -/
inductive PollResult where
  | persisted (r : PersistedRecord)
  | active (status : JobStatus) (progress : ℤ) (error : Option String)
  | notFound
deriving DecidableEq

/-- The status route: consult the completed-jobs persistence first, then
the live queue; a missing record is a 404. -/
def pollStatus (persisted : List (String × PersistedRecord))
    (s : QueueState) (id : String) : PollResult :=
  match getJobStatus persisted id with
  | some r => .persisted r
  | none =>
    match lookupA s.jobs id with
    | none => .notFound
    | some j => .active j.status j.progress j.error

/-- The render route's catch block: `failJob(jobId, error.message)`
immediately followed by `completeRenderIsolation(jobId)`. -/
def renderFailurePath (id err : String) (now : ℕ) (s : QueueState) :
    QueueState :=
  completeRenderIsolation id (failJob id err now s)

/-- The server-side view of concurrent work: the `jobQueue` bookkeeping
plus the list of jobs whose `RenderEngine.render()` pipeline is
executing.  The render route launches the pipeline in a background task
for every submission, immediately after `addJob`, without consulting
queue admission. -/
structure ServerState where
  queue : QueueState
  pipelines : List String
deriving DecidableEq

/-- One `POST /render/start` submission: `jobQueue.addJob(jobId, …)`
followed by the unconditional background start of
`new RenderEngine(jobId, …).render()`. -/
def renderStart (id : String) (jobData : JobUpdates) (now : ℕ)
    (s : ServerState) : ServerState :=
  { queue := addJob id jobData now s.queue
    pipelines := s.pipelines ++ [id] }

/-- A burst of simultaneous submissions through the render route. -/
def renderStartAll (ids : List String) (d : JobUpdates) (now : ℕ)
    (s : ServerState) : ServerState :=
  ids.foldl (fun acc id => renderStart id d now acc) s

/-! ## Visual renderer (`visualRenderer.js`)

Only the composition pipeline is embedded; the pixel algorithm of each
effect is out of scope and enters as an uninterpreted rendering
function over an abstract pixel state `C` and effect-cache state `S`. -/

/-- A layer of the scene description. -/
structure Layer where
  id : Option String
  mode : String
  visible : Bool
  opacity : ℚ
  blend : String
  paletteId : String
deriving DecidableEq

/-- JavaScript truthiness of `layer.id || 'default'`. -/
def idOrDefault : Option String → String
  | none => "default"
  | some s => if s = "" then "default" else s

/-- The `layerCache` key each stateful mode touches, read off the
`renderSmokeAdvanced`, `renderSpaceTunnel`, `renderWarpSpeed`,
`renderRain` and `renderSnowfall` bodies; stateless modes use none. -/
def effectStateKey (layer : Layer) : Option String :=
  if layer.mode = "smoke" then some "smoke_offscreen"
  else if layer.mode = "space-tunnel" then some ("stars_" ++ idOrDefault layer.id)
  else if layer.mode = "warp-speed" then some ("warp_" ++ idOrDefault layer.id)
  else if layer.mode = "rain" then some ("rain_" ++ idOrDefault layer.id)
  else if layer.mode = "snowfall" then some ("snow_" ++ idOrDefault layer.id)
  else none

/-- Canvas context state around the abstract pixel state: the renderer
sets `globalAlpha` and the composite operation per layer and restores
the defaults afterwards. -/
structure Ctx (C : Type) where
  pixels : C
  globalAlpha : ℚ
  compositeOp : String

/-- The `switch (layer.blend)` mapping to a canvas composite operation. -/
def blendOpOf (blend : String) : String :=
  if blend = "screen" then "screen"
  else if blend = "multiply" then "multiply"
  else if blend = "overlay" then "overlay"
  else if blend = "add" then "lighter"
  else "source-over"

/-- The layer loop of `VisualRenderer.renderFrame` (identical in the
full and the basic renderer): a layer that is not visible or has
non-positive opacity is skipped with `continue`; otherwise alpha and
blend are set, the mode's effect runs, and the defaults are restored. -/
def renderLayers {C S : Type}
    (renderVisualMode : Layer → Ctx C → S → Ctx C × S)
    (layers : List Layer) (st : Ctx C × S) : Ctx C × S :=
  layers.foldl
    (fun acc layer =>
      if layer.visible = false ∨ layer.opacity ≤ 0 then acc
      else
        let ctx1 := { acc.1 with globalAlpha := layer.opacity
                                 compositeOp := blendOpOf layer.blend }
        let r := renderVisualMode layer ctx1 acc.2
        ({ r.1 with compositeOp := "source-over", globalAlpha := 1 }, r.2))
    st

/-- `VisualRenderer.renderFrame`: background fill/draw, the layer loop,
then the logo overlay.  Background and logo drawing only touch the
canvas, never the effect cache. -/
def renderFrame {C S : Type}
    (fillBackground : Ctx C → Ctx C) (drawLogo : Ctx C → Ctx C)
    (renderVisualMode : Layer → Ctx C → S → Ctx C × S)
    (layers : List Layer) (st : Ctx C × S) : Ctx C × S :=
  let st1 := renderLayers renderVisualMode layers (fillBackground st.1, st.2)
  (drawLogo st1.1, st1.2)

/-! ## Theorems -/

/-! ### Association-map and set lemmas -/

theorem lookupA_setA (jobs : List (String × JobRecord)) (id id' : String)
    (j : JobRecord) :
    lookupA (setA jobs id j) id' =
      if id' = id then some j else lookupA jobs id' := by
  induction jobs with
  | nil =>
    by_cases h : id' = id
    · subst h; simp [setA, lookupA]
    · have hk : ¬ id = id' := fun hc => h hc.symm
      simp [setA, lookupA, h, hk]
  | cons p t ih =>
    obtain ⟨k, v⟩ := p
    by_cases hp : k = id
    · subst hp
      by_cases h : id' = k
      · subst h; simp [setA, lookupA]
      · have hk : ¬ k = id' := fun hc => h hc.symm
        simp [setA, lookupA, h, hk]
    · by_cases h : id' = id
      · subst h
        have hk : ¬ k = id' := fun hc => hp hc
        simp [setA, lookupA, hp, hk, ih]
      · by_cases hq : k = id'
        · subst hq; simp [setA, lookupA, hp, h, ih]
        · simp [setA, lookupA, hp, h, hq, ih]

theorem lookupA_modifyA (jobs : List (String × JobRecord)) (id id' : String)
    (f : JobRecord → JobRecord) :
    lookupA (modifyA jobs id f) id' =
      (lookupA jobs id').map (fun j => if id' = id then f j else j) := by
  induction jobs with
  | nil => simp [modifyA, lookupA]
  | cons p t ih =>
    obtain ⟨k, v⟩ := p
    by_cases hp : k = id
    · subst hp
      by_cases h : id' = k
      · subst h; simp [modifyA, lookupA]
      · have hk : ¬ k = id' := fun hc => h hc.symm
        simp [modifyA, lookupA, h, hk, ih]
    · by_cases hq : k = id'
      · subst hq
        simp [modifyA, lookupA, hp, ih]
      · simp [modifyA, lookupA, hp, hq, ih]

theorem lookupA_append_of_none (l1 l2 : List (String × JobRecord))
    (id : String) (h : lookupA l1 id = none) :
    lookupA (l1 ++ l2) id = lookupA l2 id := by
  induction l1 with
  | nil => simp
  | cons p t ih =>
    obtain ⟨k, v⟩ := p
    by_cases hp : k = id
    · simp [lookupA, hp] at h
    · simp only [lookupA, hp, if_false] at h
      simp only [List.cons_append, lookupA, hp, if_false]
      exact ih h

theorem lookupA_eq_none_of_not_mem (jobs : List (String × JobRecord))
    (id : String) (h : id ∉ jobs.map Prod.fst) :
    lookupA jobs id = none := by
  induction jobs with
  | nil => simp [lookupA]
  | cons p t ih =>
    obtain ⟨k, v⟩ := p
    simp only [List.map_cons, List.mem_cons, not_or] at h
    have hk : ¬ k = id := fun hc => h.1 hc.symm
    simp [lookupA, hk, ih h.2]

theorem setA_of_none (jobs : List (String × JobRecord)) (id : String)
    (j : JobRecord) (h : lookupA jobs id = none) :
    setA jobs id j = jobs ++ [(id, j)] := by
  induction jobs with
  | nil => simp [setA]
  | cons p t ih =>
    obtain ⟨k, v⟩ := p
    by_cases hp : k = id
    · simp [lookupA, hp] at h
    · simp only [lookupA, hp, if_false] at h
      simp [setA, hp, ih h]

theorem modifyA_append (l1 l2 : List (String × JobRecord)) (id : String)
    (f : JobRecord → JobRecord) :
    modifyA (l1 ++ l2) id f = modifyA l1 id f ++ modifyA l2 id f := by
  induction l1 with
  | nil => simp [modifyA]
  | cons p t ih =>
    by_cases hp : p.1 = id <;> simp [modifyA, hp, ih]

theorem modifyA_of_none (jobs : List (String × JobRecord)) (id : String)
    (f : JobRecord → JobRecord) (h : lookupA jobs id = none) :
    modifyA jobs id f = jobs := by
  induction jobs with
  | nil => simp [modifyA]
  | cons p t ih =>
    obtain ⟨k, v⟩ := p
    by_cases hp : k = id
    · simp [lookupA, hp] at h
    · simp only [lookupA, hp, if_false] at h
      simp [modifyA, hp, ih h]

theorem statusOf_def (s : QueueState) (id : String) :
    statusOf s id = (lookupA s.jobs id).map JobRecord.status := rfl

theorem mem_setInsert (l : List String) (id a : String) :
    a ∈ setInsert l id ↔ a ∈ l ∨ a = id := by
  by_cases h : id ∈ l
  · simp only [setInsert, if_pos h]
    constructor
    · exact Or.inl
    · rintro (ha | rfl)
      · exact ha
      · exact h
  · simp [setInsert, if_neg h]

theorem setInsert_nodup (l : List String) (id : String) (h : l.Nodup) :
    (setInsert l id).Nodup := by
  by_cases hm : id ∈ l
  · simpa [setInsert, if_pos hm] using h
  · simp [setInsert, if_neg hm, List.nodup_append, h, hm]

theorem setInsert_of_not_mem (l : List String) (id : String) (h : id ∉ l) :
    setInsert l id = l ++ [id] := by
  simp [setInsert, if_neg h]

theorem length_setInsert_le (l : List String) (id : String) :
    (setInsert l id).length ≤ l.length + 1 := by
  by_cases h : id ∈ l <;> simp [setInsert, h]

/-! ### Invariant preservation for the orchestrator -/

theorem processQueue_statusOf (now : ℕ) (s : QueueState) (hinv : Inv s)
    (id : String) (h : statusOf s id ≠ some .queued) :
    statusOf (processQueue now s) id = statusOf s id := by
  obtain ⟨hqn, hqq, hpn, hpp⟩ := hinv
  unfold processQueue
  by_cases hcap : s.maxConcurrent ≤ s.processing.length
  · rw [if_pos hcap]
  · rw [if_neg hcap]
    rcases hq : s.queue with _ | ⟨h0, rest⟩
    · rfl
    · have hmem : h0 ∈ s.queue := by rw [hq]; exact List.mem_cons_self h0 rest
      have hst : statusOf s h0 = some .queued := hqq h0 hmem
      obtain ⟨j0, hj0, hj0st⟩ := Option.map_eq_some'.mp hst
      simp only [hj0]
      have hne : id ≠ h0 := by
        intro hc
        exact h (hc ▸ hst)
      rw [statusOf_def]
      simp only [lookupA_modifyA]
      rw [statusOf_def]
      rcases hid : lookupA s.jobs id with _ | j
      · rfl
      · simp [hne]

theorem processQueue_inv (now : ℕ) (s : QueueState) (hinv : Inv s) :
    Inv (processQueue now s) := by
  obtain ⟨hqn, hqq, hpn, hpp⟩ := hinv
  unfold processQueue
  by_cases hcap : s.maxConcurrent ≤ s.processing.length
  · rw [if_pos hcap]
    exact ⟨hqn, hqq, hpn, hpp⟩
  · rw [if_neg hcap]
    rcases hq : s.queue with _ | ⟨h0, rest⟩
    · exact ⟨hqn, hqq, hpn, hpp⟩
    · have hmem : h0 ∈ s.queue := by rw [hq]; exact List.mem_cons_self h0 rest
      have hst : statusOf s h0 = some .queued := hqq h0 hmem
      obtain ⟨j0, hj0, hj0st⟩ := Option.map_eq_some'.mp hst
      simp only [hj0]
      have hrest : rest.Nodup ∧ h0 ∉ rest := by
        rw [hq] at hqn
        exact ⟨hqn.of_cons, (List.nodup_cons.mp hqn).1⟩
      have hproc0 : h0 ∉ s.processing := by
        intro hc
        have := hpp h0 hc
        rw [hst] at this
        exact JobStatus.noConfusion (Option.some.inj this)
      refine ⟨hrest.1, ?_, ?_, ?_⟩
      · intro id hid
        have hidq : id ∈ s.queue := by rw [hq]; exact List.mem_cons_of_mem h0 hid
        have : statusOf s id = some .queued := hqq id hidq
        have hne : id ≠ h0 := fun hc => hrest.2 (hc ▸ hid)
        rw [statusOf_def]
        simp only [lookupA_modifyA]
        obtain ⟨j1, hj1, hj1st⟩ := Option.map_eq_some'.mp this
        simp [hj1, hne, hj1st]
      · exact setInsert_nodup _ _ hpn
      · intro id hid
        rcases (mem_setInsert _ _ _).mp hid with hold | rfl
        · have : statusOf s id = some .processing := hpp id hold
          have hne : id ≠ h0 := by
            intro hc
            rw [hc, hst] at this
            exact JobStatus.noConfusion (Option.some.inj this)
          rw [statusOf_def]
          simp only [lookupA_modifyA]
          obtain ⟨j1, hj1, hj1st⟩ := Option.map_eq_some'.mp this
          simp [hj1, hne, hj1st]
        · rw [statusOf_def]
          simp only [lookupA_modifyA]
          simp [hj0]

theorem processQueue_max (now : ℕ) (s : QueueState) :
    (processQueue now s).maxConcurrent = s.maxConcurrent := by
  unfold processQueue
  split
  · rfl
  · split
    · rfl
    · split <;> rfl

theorem processQueue_processing_le (now : ℕ) (s : QueueState)
    (h : s.processing.length ≤ s.maxConcurrent) :
    (processQueue now s).processing.length ≤ s.maxConcurrent := by
  unfold processQueue
  split
  · exact h
  · rename_i hcap
    split
    · exact h
    · split
      · exact h
      · refine le_trans (length_setInsert_le _ _) ?_
        omega

theorem applyOp_max (s : QueueState) (op : QueueOp) :
    (applyOp s op).maxConcurrent = s.maxConcurrent := by
  cases op with
  | add id d now =>
    show (processQueue now _).maxConcurrent = _
    rw [processQueue_max]
  | process now => exact processQueue_max now s
  | update id u => rfl
  | complete id r now =>
    show (processQueue now _).maxConcurrent = _
    rw [processQueue_max]
  | fail id e now =>
    show (processQueue now _).maxConcurrent = _
    rw [processQueue_max]
  | isolate id =>
    show (completeRenderIsolation id s).maxConcurrent = _
    unfold completeRenderIsolation
    split <;> rfl

theorem applyOp_processing_le (s : QueueState) (op : QueueOp)
    (h : s.processing.length ≤ s.maxConcurrent) :
    (applyOp s op).processing.length ≤ (applyOp s op).maxConcurrent := by
  rw [applyOp_max]
  cases op with
  | add id d now => exact processQueue_processing_le _ _ h
  | process now => exact processQueue_processing_le _ _ h
  | update id u => exact h
  | complete id r now =>
    exact processQueue_processing_le _ _
      (le_trans (List.erase_sublist id s.processing).length_le h)
  | fail id e now =>
    exact processQueue_processing_le _ _
      (le_trans (List.erase_sublist id s.processing).length_le h)
  | isolate id =>
    show (completeRenderIsolation id s).processing.length ≤ _
    unfold completeRenderIsolation
    split
    · exact h
    · exact le_trans (List.erase_sublist id s.processing).length_le h

theorem runOps_processing_le (ops : List QueueOp) (s : QueueState)
    (h : s.processing.length ≤ s.maxConcurrent) :
    (runOps s ops).processing.length ≤ (runOps s ops).maxConcurrent := by
  induction ops generalizing s with
  | nil => exact h
  | cons op t ih =>
    exact ih (applyOp s op) (applyOp_processing_le s op h)

theorem statusOf_modify_other (jobs : List (String × JobRecord))
    (id x : String) (f : JobRecord → JobRecord) (hne : x ≠ id) :
    (lookupA (modifyA jobs id f) x).map JobRecord.status =
      (lookupA jobs x).map JobRecord.status := by
  rw [lookupA_modifyA]
  rcases lookupA jobs x with _ | j
  · rfl
  · simp [hne]

theorem goodStep (s : QueueState) (op : QueueOp) (hinv : Inv s)
    (hop : GoodOp s op) :
    Inv (applyOp s op) ∧
      ∀ id, (statusOf s id = some .completed ∨ statusOf s id = some .failed) →
        statusOf (applyOp s op) id = statusOf s id := by
  obtain ⟨hqn, hqq, hpn, hpp⟩ := hinv
  cases op with
  | process now =>
    refine ⟨processQueue_inv now s ⟨hqn, hqq, hpn, hpp⟩, ?_⟩
    intro id hterm
    refine processQueue_statusOf now s ⟨hqn, hqq, hpn, hpp⟩ id ?_
    rcases hterm with h | h <;> rw [h] <;>
      exact fun hc => JobStatus.noConfusion (Option.some.inj hc)
  | update id u =>
    have hstat : u.status = none := hop
    simp only [applyOp]
    have hsame : ∀ x, statusOf (updateJob id u s) x = statusOf s x := by
      intro x
      show (lookupA (modifyA s.jobs id _) x).map JobRecord.status =
        (lookupA s.jobs x).map JobRecord.status
      rw [lookupA_modifyA]
      rcases lookupA s.jobs x with _ | j
      · rfl
      · by_cases hx : x = id
        · simp [hx, applyUpdates, hstat]
        · simp [hx]
    refine ⟨⟨hqn, ?_, hpn, ?_⟩, fun x _ => hsame x⟩
    · intro x hx
      rw [hsame x]
      exact hqq x hx
    · intro x hx
      rw [hsame x]
      exact hpp x hx
  | add id d now =>
    obtain ⟨hfresh, hstat⟩ := hop
    have hjobst : (applyUpdates
        { status := .queued, progress := 0, stage := "queued", createdAt := now
          startedAt := none, completedAt := none, error := none,
          result := none } d).status = .queued := by
      simp [applyUpdates, hstat]
    have hnq : id ∉ s.queue := by
      intro hc
      have := hqq id hc
      rw [statusOf_def, hfresh] at this
      exact Option.noConfusion this
    have hnp : id ∉ s.processing := by
      intro hc
      have := hpp id hc
      rw [statusOf_def, hfresh] at this
      exact Option.noConfusion this
    have hs1same : ∀ x, x ≠ id →
        statusOf { s with
          jobs := setA s.jobs id (applyUpdates
            { status := .queued, progress := 0, stage := "queued"
              createdAt := now, startedAt := none, completedAt := none
              error := none, result := none } d)
          queue := s.queue ++ [id] } x = statusOf s x := by
      intro x hx
      show (lookupA (setA s.jobs id _) x).map JobRecord.status = _
      rw [lookupA_setA, if_neg hx]
      rfl
    have hinv1 : Inv { s with
        jobs := setA s.jobs id (applyUpdates
          { status := .queued, progress := 0, stage := "queued"
            createdAt := now, startedAt := none, completedAt := none
            error := none, result := none } d)
        queue := s.queue ++ [id] } := by
      refine ⟨?_, ?_, hpn, ?_⟩
      · simp [List.nodup_append, hqn, List.disjoint_singleton, hnq]
      · intro x hx
        rcases List.mem_append.mp hx with hl | hr
        · have hxne : x ≠ id := fun hc => hnq (hc ▸ hl)
          rw [hs1same x hxne]
          exact hqq x hl
        · have hx' : x = id := by simpa using hr
          subst hx'
          show (lookupA (setA s.jobs x _) x).map JobRecord.status = _
          rw [lookupA_setA, if_pos rfl]
          simp [hjobst]
      · intro x hx
        have hxne : x ≠ id := fun hc => hnp (hc ▸ hx)
        rw [hs1same x hxne]
        exact hpp x hx
    constructor
    · exact processQueue_inv now _ hinv1
    · intro x hterm
      have hxne : x ≠ id := by
        intro hc
        subst hc
        rcases hterm with h | h <;> rw [statusOf_def, hfresh] at h <;>
          exact Option.noConfusion h
      have h1 : statusOf (applyOp s (.add id d now)) x =
          statusOf { s with
            jobs := setA s.jobs id (applyUpdates
              { status := .queued, progress := 0, stage := "queued"
                createdAt := now, startedAt := none, completedAt := none
                error := none, result := none } d)
            queue := s.queue ++ [id] } x := by
        refine processQueue_statusOf now _ hinv1 x ?_
        rw [hs1same x hxne]
        rcases hterm with h | h <;> rw [h] <;>
          exact fun hc => JobStatus.noConfusion (Option.some.inj hc)
      rw [h1, hs1same x hxne]
  | complete id r now =>
    have hproc : id ∈ s.processing := hop
    have hpst : statusOf s id = some .processing := hpp id hproc
    have hs2same : ∀ x, x ≠ id →
        statusOf { s with processing := s.processing.erase id
                          jobs := modifyA s.jobs id (fun j =>
                            { j with status := .completed, progress := 100
                                     completedAt := some now
                                     result := some r }) } x =
          statusOf s x := by
      intro x hx
      exact statusOf_modify_other s.jobs id x _ hx
    have hinv2 : Inv { s with
        processing := s.processing.erase id
        jobs := modifyA s.jobs id (fun j =>
          { j with status := .completed, progress := 100
                   completedAt := some now, result := some r }) } := by
      refine ⟨hqn, ?_, hpn.erase id, ?_⟩
      · intro x hx
        have hxne : x ≠ id := by
          intro hc
          subst hc
          rw [hqq x hx] at hpst
          exact JobStatus.noConfusion (Option.some.inj hpst)
        rw [hs2same x hxne]
        exact hqq x hx
      · intro x hx
        have hx' := (List.Nodup.mem_erase_iff hpn).mp hx
        rw [hs2same x hx'.1]
        exact hpp x hx'.2
    constructor
    · exact processQueue_inv now _ hinv2
    · intro x hterm
      have hxne : x ≠ id := by
        intro hc
        subst hc
        rcases hterm with h | h <;> rw [h] at hpst <;>
          exact JobStatus.noConfusion (Option.some.inj hpst)
      have h1 : statusOf (applyOp s (.complete id r now)) x =
          statusOf { s with
            processing := s.processing.erase id
            jobs := modifyA s.jobs id (fun j =>
              { j with status := .completed, progress := 100
                       completedAt := some now, result := some r }) } x := by
        refine processQueue_statusOf now _ hinv2 x ?_
        rw [hs2same x hxne]
        rcases hterm with h | h <;> rw [h] <;>
          exact fun hc => JobStatus.noConfusion (Option.some.inj hc)
      rw [h1, hs2same x hxne]
  | fail id e now =>
    have hproc : id ∈ s.processing := hop
    have hpst : statusOf s id = some .processing := hpp id hproc
    have hs2same : ∀ x, x ≠ id →
        statusOf { s with processing := s.processing.erase id
                          jobs := modifyA s.jobs id (fun j =>
                            { j with status := .failed, error := some e
                                     completedAt := some now }) } x =
          statusOf s x := by
      intro x hx
      exact statusOf_modify_other s.jobs id x _ hx
    have hinv2 : Inv { s with
        processing := s.processing.erase id
        jobs := modifyA s.jobs id (fun j =>
          { j with status := .failed, error := some e
                   completedAt := some now }) } := by
      refine ⟨hqn, ?_, hpn.erase id, ?_⟩
      · intro x hx
        have hxne : x ≠ id := by
          intro hc
          subst hc
          rw [hqq x hx] at hpst
          exact JobStatus.noConfusion (Option.some.inj hpst)
        rw [hs2same x hxne]
        exact hqq x hx
      · intro x hx
        have hx' := (List.Nodup.mem_erase_iff hpn).mp hx
        rw [hs2same x hx'.1]
        exact hpp x hx'.2
    constructor
    · exact processQueue_inv now _ hinv2
    · intro x hterm
      have hxne : x ≠ id := by
        intro hc
        subst hc
        rcases hterm with h | h <;> rw [h] at hpst <;>
          exact JobStatus.noConfusion (Option.some.inj hpst)
      have h1 : statusOf (applyOp s (.fail id e now)) x =
          statusOf { s with
            processing := s.processing.erase id
            jobs := modifyA s.jobs id (fun j =>
              { j with status := .failed, error := some e
                       completedAt := some now }) } x := by
        refine processQueue_statusOf now _ hinv2 x ?_
        rw [hs2same x hxne]
        rcases hterm with h | h <;> rw [h] <;>
          exact fun hc => JobStatus.noConfusion (Option.some.inj hc)
      rw [h1, hs2same x hxne]
  | isolate id => exact hop.elim

theorem addAll_spec (k : ℕ) (d : JobUpdates) (now : ℕ)
    (ids : List String) (hnodup : ids.Nodup) :
    runOps (initState k) (ids.map (fun id => QueueOp.add id d now)) =
      { jobs := (ids.take k).map (fun id => (id, startedRec d now)) ++
          (ids.drop k).map (fun id => (id, queuedRec d now))
        queue := ids.drop k
        processing := ids.take k
        maxConcurrent := k } := by
  induction ids using List.reverseRecOn with
  | nil => simp [runOps, initState]
  | append_singleton ids id ih =>
    have hsplit := List.nodup_append.mp hnodup
    have hids : ids.Nodup := hsplit.1
    have hnotin : id ∉ ids := fun hmem =>
      hsplit.2.2 hmem (List.mem_singleton_self id)
    have hstep : runOps (initState k)
        ((ids ++ [id]).map (fun i => QueueOp.add i d now)) =
        applyOp (runOps (initState k) (ids.map (fun i => QueueOp.add i d now)))
          (QueueOp.add id d now) := by
      rw [List.map_append, runOps, List.foldl_append]
      rfl
    rw [hstep, ih hids]
    have hkeys : (((ids.take k).map (fun id => (id, startedRec d now)) ++
        (ids.drop k).map (fun id => (id, queuedRec d now))).map Prod.fst) =
        ids := by
      simp only [List.map_append, List.map_map]
      have h1 : (Prod.fst ∘ fun id : String => (id, startedRec d now)) =
          fun x : String => x := rfl
      have h2 : (Prod.fst ∘ fun id : String => (id, queuedRec d now)) =
          fun x : String => x := rfl
      rw [h1, h2, List.map_id', List.map_id', List.take_append_drop]
    have hlook : lookupA
        ((ids.take k).map (fun id => (id, startedRec d now)) ++
          (ids.drop k).map (fun id => (id, queuedRec d now))) id = none := by
      apply lookupA_eq_none_of_not_mem
      rw [hkeys]
      exact hnotin
    simp only [applyOp, addJob]
    rw [setA_of_none _ _ _ hlook]
    by_cases hk : k ≤ ids.length
    · have htake : (ids ++ [id]).take k = ids.take k :=
        List.take_append_of_le_length hk
      have hdrop : (ids ++ [id]).drop k = ids.drop k ++ [id] :=
        List.drop_append_of_le_length hk
      have hlen : (ids.take k).length = k := by
        rw [List.length_take]
        omega
      unfold processQueue
      rw [if_pos (by simp only [hlen]; exact le_refl k)]
      rw [htake, hdrop]
      simp [queuedRec, List.map_append, List.append_assoc]
    · push_neg at hk
      have htake1 : ids.take k = ids := List.take_of_length_le (le_of_lt hk)
      have hdrop1 : ids.drop k = [] := List.drop_eq_nil_of_le (le_of_lt hk)
      have htake2 : (ids ++ [id]).take k = ids ++ [id] := by
        apply List.take_of_length_le
        simp only [List.length_append, List.length_singleton]
        omega
      have hdrop2 : (ids ++ [id]).drop k = [] := by
        apply List.drop_eq_nil_of_le
        simp only [List.length_append, List.length_singleton]
        omega
      have hlookS : lookupA (ids.map (fun id => (id, startedRec d now))) id =
          none := by
        apply lookupA_eq_none_of_not_mem
        have h1 : (Prod.fst ∘ fun id : String => (id, startedRec d now)) =
            fun x : String => x := rfl
        simp only [List.map_map, h1, List.map_id']
        exact hnotin
      simp only [htake1, hdrop1, htake2, hdrop2, List.map_nil,
        List.append_nil, List.nil_append]
      have hlook2 : lookupA
          (ids.map (fun id => (id, startedRec d now)) ++
            [(id, applyUpdates
              { status := .queued, progress := 0, stage := "queued"
                createdAt := now, startedAt := none, completedAt := none
                error := none, result := none } d)]) id =
          some (applyUpdates
            { status := .queued, progress := 0, stage := "queued"
              createdAt := now, startedAt := none, completedAt := none
              error := none, result := none } d) := by
        rw [lookupA_append_of_none _ _ _ hlookS]
        simp [lookupA]
      unfold processQueue
      split
      · rename_i hcap
        exfalso
        simp only [List.length_map] at hcap
        omega
      · simp only [hlook2]
        rw [modifyA_append, modifyA_of_none _ _ _ hlookS]
        rw [setInsert_of_not_mem ids id hnotin]
        simp [modifyA, startedRec, queuedRec, List.map_append]
/-- Characterization of a burst of submissions: the queue bookkeeping
evolves by the corresponding `addJob` calls, while every submitted id
joins the executing-pipelines list. -/
theorem renderStartAll_spec (ids : List String) (d : JobUpdates) (now : ℕ)
    (q : QueueState) (ps : List String) :
    renderStartAll ids d now { queue := q, pipelines := ps } =
      { queue := runOps q (ids.map (fun id => QueueOp.add id d now))
        pipelines := ps ++ ids } := by
  induction ids generalizing q ps with
  | nil => simp [renderStartAll, runOps]
  | cons a t ih =>
    show renderStartAll t d now
        { queue := addJob a d now q, pipelines := ps ++ [a] } = _
    rw [ih]
    simp [runOps, applyOp, List.append_assoc]

/-- C3 counterexample: with `maxConcurrent = 1`, two simultaneous
submissions leave two render pipelines executing concurrently — the
route starts `renderEngine.render()` for every request with no queue
gating — even though the bookkeeping records only one job as
processing. -/
theorem executing_pipelines_exceed_limit_counterexample :
    (renderStartAll ["a", "b"] {} 0
        { queue := initState 1, pipelines := [] }).pipelines.length = 2 ∧
    1 < 2 ∧
    (renderStartAll ["a", "b"] {} 0
        { queue := initState 1, pipelines := [] }).queue.processing.length =
      1 := by
  decide

/-- C3 amended: the `processing.size ≤ K` bound holds of the `jobQueue`
bookkeeping in every reachable queue state, and `K + 1` distinct fresh
submissions leave exactly one job record `queued` and `K` `processing`;
but the bound does not govern execution: the render route starts every
submission's pipeline immediately, so the same `K + 1` submissions
leave all `K + 1` pipelines executing concurrently. -/
theorem bounded_bookkeeping_unbounded_pipelines (k now : ℕ)
    (ops : List QueueOp) (d : JobUpdates) (hd : d.status = none)
    (ids : List String) (hnodup : ids.Nodup) (hlen : ids.length = k + 1) :
    (runOps (initState k) ops).processing.length ≤
      (runOps (initState k) ops).maxConcurrent ∧
    (renderStartAll ids d now
        { queue := initState k, pipelines := [] }).pipelines = ids ∧
    k < (renderStartAll ids d now
        { queue := initState k, pipelines := [] }).pipelines.length ∧
    (renderStartAll ids d now
        { queue := initState k, pipelines := [] }).queue.processing.length =
      k ∧
    countStatus (renderStartAll ids d now
        { queue := initState k, pipelines := [] }).queue .processing = k ∧
    countStatus (renderStartAll ids d now
        { queue := initState k, pipelines := [] }).queue .queued = 1 := by
  have hsrv := renderStartAll_spec ids d now (initState k) []
  have hspec := addAll_spec k d now ids hnodup
  have hq : (renderStartAll ids d now
      { queue := initState k, pipelines := [] }).queue =
      { jobs := (ids.take k).map (fun id => (id, startedRec d now)) ++
          (ids.drop k).map (fun id => (id, queuedRec d now))
        queue := ids.drop k
        processing := ids.take k
        maxConcurrent := k } := by
    rw [hsrv]
    exact hspec
  have hpipe : (renderStartAll ids d now
      { queue := initState k, pipelines := [] }).pipelines = ids := by
    rw [hsrv]
    exact List.nil_append ids
  have hcf : ∀ (l : List String) (r : JobRecord) (st : JobStatus),
      ((l.map (fun id => (id, r))).filter
        (fun p => p.2.status == st)).length =
        if r.status = st then l.length else 0 := by
    intro l r st
    induction l with
    | nil => simp
    | cons a t ih =>
      by_cases h : r.status = st
      · simp [List.filter_cons, h, ih]
      · simp [List.filter_cons, h, ih]
  refine ⟨runOps_processing_le ops (initState k) (by simp [initState]),
    hpipe, ?_, ?_, ?_, ?_⟩
  · rw [hpipe, hlen]
    omega
  · rw [hq]
    simp [List.length_take]
    omega
  · rw [hq]
    unfold countStatus
    simp only [List.filter_append, List.length_append, hcf]
    have h1 : (startedRec d now).status = .processing := rfl
    have h2 : (queuedRec d now).status = .queued := by
      simp [queuedRec, applyUpdates, hd]
    rw [h1, h2]
    simp [List.length_take]
    omega
  · rw [hq]
    unfold countStatus
    simp only [List.filter_append, List.length_append, hcf]
    have h1 : (startedRec d now).status = .processing := rfl
    have h2 : (queuedRec d now).status = .queued := by
      simp [queuedRec, applyUpdates, hd]
    rw [h1, h2]
    simp [List.length_drop]
    omega

/-- Witness for C3's amended theorem with `K = 1` and two submissions. -/
theorem bounded_bookkeeping_unbounded_pipelines_witness :
    ({} : JobUpdates).status = none ∧ (["a", "b"] : List String).Nodup ∧
    (["a", "b"] : List String).length = 1 + 1 ∧
    ((runOps (initState 1) []).processing.length ≤
        (runOps (initState 1) []).maxConcurrent ∧
      (renderStartAll ["a", "b"] {} 0
          { queue := initState 1, pipelines := [] }).pipelines = ["a", "b"] ∧
      1 < (renderStartAll ["a", "b"] {} 0
          { queue := initState 1, pipelines := [] }).pipelines.length ∧
      (renderStartAll ["a", "b"] {} 0
          { queue := initState 1,
            pipelines := [] }).queue.processing.length = 1 ∧
      countStatus (renderStartAll ["a", "b"] {} 0
          { queue := initState 1, pipelines := [] }).queue .processing = 1 ∧
      countStatus (renderStartAll ["a", "b"] {} 0
          { queue := initState 1, pipelines := [] }).queue .queued = 1) :=
  ⟨rfl, by decide, rfl,
    bounded_bookkeeping_unbounded_pipelines 1 0 [] {} rfl ["a", "b"]
      (by decide) rfl⟩

/-- C5 counterexample: terminal statuses are not final under the five
orchestrator operations.  Three concrete runs violate the claim: a
`completed` job is reset to `queued` by an `updateJob` carrying a
status; re-`addJob`ing a completed id restarts it to `processing`; and
completing a still-queued job lets the next `processQueue` move it from
`completed` back to `processing`. -/
theorem terminal_status_mutable_counterexample :
    (statusOf (runOps (initState 1)
        [QueueOp.add "a" {} 0, QueueOp.complete "a" "out" 1]) "a" =
        some .completed ∧
      statusOf (runOps (initState 1)
        [QueueOp.add "a" {} 0, QueueOp.complete "a" "out" 1,
          QueueOp.update "a" { status := some .queued }]) "a" =
        some .queued) ∧
    statusOf (runOps (initState 1)
        [QueueOp.add "a" {} 0, QueueOp.complete "a" "out" 1,
          QueueOp.add "a" {} 2]) "a" = some .processing ∧
    (statusOf (runOps (initState 1)
        [QueueOp.add "a" {} 0, QueueOp.add "b" {} 0,
          QueueOp.complete "b" "out" 1]) "b" = some .completed ∧
      statusOf (runOps (initState 1)
        [QueueOp.add "a" {} 0, QueueOp.add "b" {} 0,
          QueueOp.complete "b" "out" 1, QueueOp.complete "a" "out" 2]) "b" =
        some .processing) := by
  decide

/-- C5 amended: under the discipline the render route follows —
submissions carry fresh ids and no status override, periodic progress
updates carry no status, and completion/failure is reported only for
jobs in the processing set — a job that has reached `completed` or
`failed` keeps that status for the rest of the run. -/
theorem terminal_status_final_guarded (s : QueueState) (ops : List QueueOp)
    (hinv : Inv s) (hrun : GoodRun s ops) (id : String)
    (hterm : statusOf s id = some .completed ∨ statusOf s id = some .failed) :
    statusOf (runOps s ops) id = statusOf s id := by
  induction ops generalizing s with
  | nil => rfl
  | cons op t ih =>
    obtain ⟨hop, hrest⟩ := hrun
    obtain ⟨hinv1, hpres⟩ := goodStep s op hinv hop
    have hp := hpres id hterm
    have hterm1 : statusOf (applyOp s op) id = some .completed ∨
        statusOf (applyOp s op) id = some .failed := by
      rw [hp]
      exact hterm
    calc statusOf (runOps s (op :: t)) id
        = statusOf (runOps (applyOp s op) t) id := rfl
      _ = statusOf (applyOp s op) id := ih (applyOp s op) hinv1 hrest hterm1
      _ = statusOf s id := hp

/-- Witness for C5's amended theorem: a completed job stays completed
across a further `processQueue` tick. -/
theorem terminal_status_final_guarded_witness :
    Inv (runOps (initState 1)
      [QueueOp.add "a" {} 0, QueueOp.complete "a" "out" 1]) ∧
    GoodRun (runOps (initState 1)
      [QueueOp.add "a" {} 0, QueueOp.complete "a" "out" 1])
      [QueueOp.process 2] ∧
    (statusOf (runOps (initState 1)
        [QueueOp.add "a" {} 0, QueueOp.complete "a" "out" 1]) "a" =
        some .completed ∨
      statusOf (runOps (initState 1)
        [QueueOp.add "a" {} 0, QueueOp.complete "a" "out" 1]) "a" =
        some .failed) ∧
    statusOf (runOps (runOps (initState 1)
        [QueueOp.add "a" {} 0, QueueOp.complete "a" "out" 1])
        [QueueOp.process 2]) "a" =
      statusOf (runOps (initState 1)
        [QueueOp.add "a" {} 0, QueueOp.complete "a" "out" 1]) "a" :=
  ⟨⟨by decide, by decide, by decide, by decide⟩,
    (by exact ⟨trivial, trivial⟩),
    Or.inl (by decide),
    terminal_status_final_guarded
      (runOps (initState 1)
        [QueueOp.add "a" {} 0, QueueOp.complete "a" "out" 1])
      [QueueOp.process 2]
      ⟨by decide, by decide, by decide, by decide⟩
      (by exact ⟨trivial, trivial⟩) "a" (Or.inl (by decide))⟩

/-- C1: for every valid config (`endTime > startTime`, positive integer
`fps`), `AudioAnalyzer.analyzeAudio(fps)` returns exactly
`ceil((endTime - startTime) * fps)` feature frames. -/
theorem analyzeAudio_frame_count (startTime endTime : ℚ) (samples : List ℚ)
    (fps : ℕ) (hrange : startTime < endTime) (hfps : 0 < fps) :
    ((analyzeAudio startTime endTime samples fps).length : ℤ) =
      ⌈(endTime - startTime) * (fps : ℚ)⌉ := by
  have hpos : (0 : ℚ) < (endTime - startTime) * (fps : ℚ) := by
    have h1 : (0 : ℚ) < endTime - startTime := by linarith
    have h2 : (0 : ℚ) < (fps : ℚ) := by exact_mod_cast hfps
    exact mul_pos h1 h2
  have hceil : 0 ≤ ⌈(endTime - startTime) * (fps : ℚ)⌉ :=
    le_of_lt (Int.ceil_pos.mpr hpos)
  unfold analyzeAudio
  simp [Int.toNat_of_nonneg hceil]

/-- Witness for C1 at a 5-second segment rendered at 30 fps. -/
theorem analyzeAudio_frame_count_witness :
    (0 : ℚ) < 5 ∧ 0 < 30 ∧
      ((analyzeAudio 0 5 [] 30).length : ℤ) = ⌈((5 : ℚ) - 0) * ((30 : ℕ) : ℚ)⌉ :=
  ⟨by norm_num, by norm_num,
    analyzeAudio_frame_count 0 5 [] 30 (by norm_num) (by norm_num)⟩

/-- C10: for every sample window, all-zero samples give RMS `0`, and
scaling every sample by a non-negative constant `c` scales the RMS by
`c` (exactly, in the real-number model of the source's arithmetic). -/
theorem calculateRMS_silent_and_scaling (samples : List ℚ) (c : ℚ)
    (hc : 0 ≤ c) :
    ((∀ s ∈ samples, s = 0) → Real.sqrt (calculateRMSSq samples) = 0) ∧
    Real.sqrt (calculateRMSSq (samples.map (fun s => c * s))) =
      (c : ℝ) * Real.sqrt (calculateRMSSq samples) := by
  constructor
  · intro hz
    have hms : calculateRMSSq samples = 0 := by
      unfold calculateRMSSq
      by_cases h : samples.length = 0
      · simp [h]
      · have hsum : (samples.map (fun s => s * s)).sum = 0 := by
          apply List.sum_eq_zero
          intro x hx
          obtain ⟨s, hs, rfl⟩ := List.mem_map.mp hx
          rw [hz s hs, mul_zero]
        simp [h, hsum]
    rw [hms]
    simp
  · have hsum : ∀ l : List ℚ,
        ((l.map (fun s => c * s)).map (fun s => s * s)).sum =
          c ^ 2 * (l.map (fun s => s * s)).sum := by
      intro l
      induction l with
      | nil => simp
      | cons a t ih =>
        simp only [List.map_cons, List.sum_cons]
        rw [ih]
        ring
    have key : calculateRMSSq (samples.map (fun s => c * s)) =
        c ^ 2 * calculateRMSSq samples := by
      unfold calculateRMSSq
      by_cases h : samples.length = 0
      · simp [h]
      · simp only [List.length_map, if_neg h]
        rw [hsum samples]
        ring
    rw [key]
    push_cast
    rw [Real.sqrt_mul (by positivity) ((calculateRMSSq samples : ℚ) : ℝ)]
    rw [Real.sqrt_sq (by exact_mod_cast hc)]

/-- Witness for C10 on the window `[0]` with factor `2`. -/
theorem calculateRMS_silent_and_scaling_witness :
    (0 : ℚ) ≤ 2 ∧
      (((∀ s ∈ ([0] : List ℚ), s = 0) →
          Real.sqrt (calculateRMSSq [0]) = 0) ∧
        Real.sqrt (calculateRMSSq (([0] : List ℚ).map (fun s => 2 * s))) =
          ((2 : ℚ) : ℝ) * Real.sqrt (calculateRMSSq [0])) :=
  ⟨by norm_num, calculateRMS_silent_and_scaling [0] 2 (by norm_num)⟩

/-- C7 counterexample: after a successful ffmpeg run,
`AudioAnalyzer.extractSegment` reports success even when the output file
is missing or has zero bytes — the claimed explicit output check does
not exist in the source. -/
theorem extractSegment_missing_output_counterexample :
    extractSegment "audio.wav" ExecResult.ok none = Except.ok "audio.wav" ∧
      extractSegment "audio.wav" ExecResult.ok (some 0) =
        Except.ok "audio.wav" :=
  ⟨rfl, rfl⟩

/-- C7 amended: `extractSegment` fails exactly when the ffmpeg
subprocess itself fails (propagating that error), and its outcome is
entirely independent of the state of the output file. -/
theorem extractSegment_exit_code_only (p : String) (e : ExecResult)
    (f1 f2 : Option ℕ) :
    extractSegment p e f1 = extractSegment p e f2 ∧
      (extractSegment p e f1 = Except.ok p ↔ e = ExecResult.ok) := by
  cases e <;> simp [extractSegment]

/-- C2 counterexample: with a high-water mark of `1` and a stalled
consumer, the claimed suspension-until-drain would keep the backlog at
most one chunk past the mark, yet the producer pushes all three frames
into the saturated channel — the write's saturation flag is discarded
and no drain is ever awaited. -/
theorem processFramesStreaming_overflow_counterexample :
    processFramesStreaming [0, 1, 2]
        { ch := { buffer := [], highWaterMark := 1, destroyed := false }
          processAlive := true
          killed := false } =
      Except.ok
        { ch := { buffer := [0, 1, 2], highWaterMark := 1, destroyed := false }
          processAlive := true
          killed := false } ∧
      1 + 1 < 3 :=
  ⟨rfl, by norm_num⟩

/-- C2 amended: while the subprocess stays alive and stdin is not
destroyed, `processFramesStreaming` writes every frame in strict index
order, but it never suspends on saturation: the whole frame list is
appended to the channel's internal buffer even when nothing drains, so
the backlog is bounded only by the number of frames, not by the
high-water mark. -/
theorem processFramesStreaming_ordered_unbounded (frames : List ℕ)
    (st : StreamState) (halive : st.processAlive = true)
    (hdest : st.ch.destroyed = false) (hkill : st.killed = false) :
    processFramesStreaming frames st =
      Except.ok
        { st with ch := { st.ch with buffer := st.ch.buffer ++ frames } } := by
  induction frames generalizing st with
  | nil =>
    simp [processFramesStreaming]
  | cons f t ih =>
    have hstep : processFramesStreaming (f :: t) st =
        processFramesStreaming t
          { st with ch := (channelWrite st.ch f).1 } := by
      unfold processFramesStreaming
      simp [List.foldl_cons, halive, hdest, hkill]
    rw [hstep, ih _ (by simpa using halive) (by simpa [channelWrite] using hdest)
      (by simpa using hkill)]
    simp [channelWrite, List.append_assoc]

/-- Witness for C2's amended theorem: one frame through a live channel. -/
theorem processFramesStreaming_ordered_unbounded_witness :
    processFramesStreaming [5]
        { ch := { buffer := [], highWaterMark := 16, destroyed := false }
          processAlive := true
          killed := false } =
      Except.ok
        { ch := { buffer := [] ++ [5], highWaterMark := 16, destroyed := false }
          processAlive := true
          killed := false } :=
  processFramesStreaming_ordered_unbounded [5]
    { ch := { buffer := [], highWaterMark := 16, destroyed := false }
      processAlive := true
      killed := false } rfl rfl rfl

/-- Skipping lemma for the layer loop: a hidden or fully transparent
layer is `continue`d before any context mutation, so the fold ignores
it entirely. -/
theorem renderLayers_skip {C S : Type}
    (rvm : Layer → Ctx C → S → Ctx C × S) (pre post : List Layer)
    (l : Layer) (st : Ctx C × S)
    (h : l.visible = false ∨ l.opacity ≤ 0) :
    renderLayers rvm (pre ++ l :: post) st =
      renderLayers rvm (pre ++ post) st := by
  unfold renderLayers
  rw [List.foldl_append, List.foldl_append, List.foldl_cons, if_pos h]

/-- C9: rendering with a layer whose `visible` flag is false or whose
opacity is `0` (indeed any non-positive opacity) produces exactly the
frame — pixels and effect-cache state — obtained by removing that layer
from the layer list, for every background, logo, effect semantics and
starting state. -/
theorem hidden_layer_no_pixel_change {C S : Type}
    (fillBackground drawLogo : Ctx C → Ctx C)
    (rvm : Layer → Ctx C → S → Ctx C × S)
    (pre post : List Layer) (l : Layer) (st : Ctx C × S)
    (h : l.visible = false ∨ l.opacity ≤ 0) :
    renderFrame fillBackground drawLogo rvm (pre ++ l :: post) st =
      renderFrame fillBackground drawLogo rvm (pre ++ post) st := by
  unfold renderFrame
  rw [renderLayers_skip rvm pre post l _ h]

/-- Witness for C9: an invisible bars layer over a trivial canvas
semantics changes nothing. -/
theorem hidden_layer_no_pixel_change_witness :
    renderFrame (C := Unit) (S := Unit) id id (fun _ c s => (c, s))
        ([] ++ { id := some "L1", mode := "bars", visible := false,
                 opacity := 1, blend := "normal",
                 paletteId := "blue-ocean" } :: [])
        (⟨(), 1, "source-over"⟩, ()) =
      renderFrame (C := Unit) (S := Unit) id id (fun _ c s => (c, s))
        ([] ++ []) (⟨(), 1, "source-over"⟩, ()) :=
  hidden_layer_no_pixel_change id id (fun _ c s => (c, s)) [] []
    { id := some "L1", mode := "bars", visible := false, opacity := 1,
      blend := "normal", paletteId := "blue-ocean" }
    (⟨(), 1, "source-over"⟩, ()) (Or.inl rfl)

/-- C4 counterexample: the one-sample window `[1/2]` is non-empty and
shorter than one bucket, but its first frequency bin is NaN (from the
`0 / 0` chunk average), not the claimed zero fill. -/
theorem short_window_bins_counterexample :
    ([(1 : ℚ)/2] : List ℚ) ≠ [] ∧
      ([(1 : ℚ)/2] : List ℚ).length < fftSize ∧
      (calculateFrequency [(1 : ℚ)/2]).headD (JSNum.val 0) = JSNum.nan ∧
      (calculateWaveform [(1 : ℚ)/2]).headD (JSNum.val 0) = JSNum.nan ∧
      calculateFrequency [(1 : ℚ)/2] ≠ List.replicate fftSize (JSNum.val 0) := by
  refine ⟨by decide, by decide, by decide, by decide, ?_⟩
  intro h
  have : (calculateFrequency [(1 : ℚ)/2]).headD (JSNum.val 0) =
      (List.replicate fftSize (JSNum.val 0)).headD (JSNum.val 0) := by rw [h]
  revert this
  decide

/-- C4 amended: `freqBins` and `waveBins` always have the fixed length
`fftSize`; an empty window yields all-zero bins and RMS `0`; but a
non-empty window shorter than one bucket yields NaN-filled bins (the
chunk size floors to zero and each bin becomes `0 / 0`), not the
zero-filled bins the specification describes. -/
theorem feature_bins_contract (samples : List ℚ) :
    (calculateFrequency samples).length = fftSize ∧
    (calculateWaveform samples).length = fftSize ∧
    (samples.length = 0 →
      calculateFrequency samples = List.replicate fftSize (JSNum.val 0) ∧
      calculateWaveform samples = List.replicate fftSize (JSNum.val 0) ∧
      Real.sqrt (calculateRMSSq samples) = 0) ∧
    (samples.length ≠ 0 → samples.length < fftSize →
      calculateFrequency samples = List.replicate fftSize JSNum.nan ∧
      calculateWaveform samples = List.replicate fftSize JSNum.nan) := by
  refine ⟨?_, ?_, ?_, ?_⟩
  · by_cases h : samples.length = 0 <;> simp [calculateFrequency, h]
  · by_cases h : samples.length = 0 <;> simp [calculateWaveform, h]
  · intro h
    refine ⟨by simp [calculateFrequency, h], by simp [calculateWaveform, h], ?_⟩
    simp [calculateRMSSq, h]
  · intro hne hlt
    have hch : samples.length / fftSize = 0 := Nat.div_eq_of_lt hlt
    constructor
    · unfold calculateFrequency
      rw [if_neg hne]
      rw [List.eq_replicate_iff]
      refine ⟨by simp, ?_⟩
      intro b hb
      obtain ⟨i, _, rfl⟩ := List.mem_map.mp hb
      simp [hch, jsDiv, jsMulPos, jsFloor, jsMin255]
    · unfold calculateWaveform
      rw [if_neg hne]
      rw [List.eq_replicate_iff]
      refine ⟨by simp, ?_⟩
      intro b hb
      obtain ⟨i, _, rfl⟩ := List.mem_map.mp hb
      simp [hch, jsDiv, jsMulPos, jsAddConst, jsFloor]

/-- Witness for C4's amended theorem at the short window `[1/2]`. -/
theorem feature_bins_contract_witness :
    (calculateFrequency [(1 : ℚ)/2]).length = fftSize ∧
    (calculateWaveform [(1 : ℚ)/2]).length = fftSize ∧
    (([(1 : ℚ)/2] : List ℚ).length = 0 →
      calculateFrequency [(1 : ℚ)/2] = List.replicate fftSize (JSNum.val 0) ∧
      calculateWaveform [(1 : ℚ)/2] = List.replicate fftSize (JSNum.val 0) ∧
      Real.sqrt (calculateRMSSq [(1 : ℚ)/2]) = 0) ∧
    (([(1 : ℚ)/2] : List ℚ).length ≠ 0 → ([(1 : ℚ)/2] : List ℚ).length < fftSize →
      calculateFrequency [(1 : ℚ)/2] = List.replicate fftSize JSNum.nan ∧
      calculateWaveform [(1 : ℚ)/2] = List.replicate fftSize JSNum.nan) :=
  feature_bins_contract [(1 : ℚ)/2]

/-- C6: after `failJob` the record briefly shows `status = failed` with
the human-readable error — but the render route's catch block
immediately runs `completeRenderIsolation`, which deletes the record,
so polling the failed job thereafter answers 404 `NotFound` instead of
`Failed`, long before the documented one-hour retention window. -/
theorem poll_failed_job_not_found :
    statusOf (failJob "j" "boom" 1
        (runOps (initState 10) [QueueOp.add "j" {} 0])) "j" =
      some .failed ∧
    (lookupA (failJob "j" "boom" 1
        (runOps (initState 10) [QueueOp.add "j" {} 0])).jobs "j").map
        JobRecord.error = some (some "boom") ∧
    pollStatus [] (renderFailurePath "j" "boom" 1
        (runOps (initState 10) [QueueOp.add "j" {} 0])) "j" =
      PollResult.notFound := by
  decide

/-- Left cancellation for string concatenation. -/
theorem string_append_cancel (p a b : String) (h : p ++ a = p ++ b) :
    a = b := by
  have hdata : (p ++ a).data = (p ++ b).data := by rw [h]
  rw [String.data_append, String.data_append] at hdata
  have hab : a.data = b.data := List.append_cancel_left hdata
  cases a
  cases b
  exact congrArg String.mk hab

/-- C8 counterexample: two distinct smoke layers (distinct stable ids)
resolve to the same `layerCache` key `smoke_offscreen` inside one job's
renderer, so their persistent effect state is shared rather than keyed
by layer id. -/
theorem effect_state_key_shared_counterexample :
    ({ id := some "layerA", mode := "smoke", visible := true, opacity := 1,
        blend := "normal", paletteId := "blue-ocean" } : Layer) ≠
      { id := some "layerB", mode := "smoke", visible := true, opacity := 1,
        blend := "normal", paletteId := "blue-ocean" } ∧
    effectStateKey
        { id := some "layerA", mode := "smoke", visible := true, opacity := 1,
          blend := "normal", paletteId := "blue-ocean" } =
      some "smoke_offscreen" ∧
    effectStateKey
        { id := some "layerA", mode := "smoke", visible := true, opacity := 1,
          blend := "normal", paletteId := "blue-ocean" } =
      effectStateKey
        { id := some "layerB", mode := "smoke", visible := true, opacity := 1,
          blend := "normal", paletteId := "blue-ocean" } := by
  decide

/-- C8 amended: effect state lives in the per-renderer (hence per-job)
`layerCache`, and the space-tunnel, warp-speed, rain and snowfall modes
key it by the owning layer's id — layers of the same such mode with
distinct truthy ids get distinct entries — but the smoke mode uses one
fixed key shared by every smoke layer of the job (and layers whose id
is absent or empty share a per-mode `default` entry). -/
theorem effect_state_keying (l1 l2 : Layer) (s1 s2 : String)
    (h1 : l1.id = some s1) (h1ne : s1 ≠ "") (h2 : l2.id = some s2)
    (h2ne : s2 ≠ "") (hne : s1 ≠ s2) (hmode : l2.mode = l1.mode)
    (hm : l1.mode = "space-tunnel" ∨ l1.mode = "warp-speed" ∨
      l1.mode = "rain" ∨ l1.mode = "snowfall") :
    effectStateKey l1 ≠ effectStateKey l2 ∧
      (∀ m1 m2 : Layer, m1.mode = "smoke" → m2.mode = "smoke" →
        effectStateKey m1 = effectStateKey m2) := by
  constructor
  · have hid1 : idOrDefault l1.id = s1 := by
      rw [h1]
      simp [idOrDefault, h1ne]
    have hid2 : idOrDefault l2.id = s2 := by
      rw [h2]
      simp [idOrDefault, h2ne]
    rcases hm with hm | hm | hm | hm <;>
      · simp [effectStateKey, hmode, hm, hid1, hid2]
        intro hc
        exact hne (string_append_cancel _ _ _ hc)
  · intro m1 m2 hm1 hm2
    simp [effectStateKey, hm1, hm2]

/-- Witness for C8's amended theorem: two space-tunnel layers with ids
`layerA` and `layerB`. -/
theorem effect_state_keying_witness :
    effectStateKey
        { id := some "layerA", mode := "space-tunnel", visible := true,
          opacity := 1, blend := "normal", paletteId := "blue-ocean" } ≠
      effectStateKey
        { id := some "layerB", mode := "space-tunnel", visible := true,
          opacity := 1, blend := "normal", paletteId := "blue-ocean" } ∧
      (∀ m1 m2 : Layer, m1.mode = "smoke" → m2.mode = "smoke" →
        effectStateKey m1 = effectStateKey m2) :=
  effect_state_keying
    { id := some "layerA", mode := "space-tunnel", visible := true,
      opacity := 1, blend := "normal", paletteId := "blue-ocean" }
    { id := some "layerB", mode := "space-tunnel", visible := true,
      opacity := 1, blend := "normal", paletteId := "blue-ocean" }
    "layerA" "layerB" rfl (by decide) rfl (by decide) (by decide) rfl
    (Or.inl rfl)

end VEA
